import Mathlib

/-!
Verification of the foxtail bookmark tool (src/foxtail/__main__.py)

This file shallowly embeds the data model and the operations of the
program in Lean 4:

* `Result` embeds the `Result` dataclass (url, title, time in
  microseconds, summary); `Result.get_date` embeds the derived local
  calendar date.  The local timezone offset of `astimezone()` is an
  explicit parameter `tz` given in seconds; the truncation
  `int(time / 1e6)` is integer division toward zero (exact for the
  int64-range timestamps the program handles).
* `InputCache` embeds the sqlite-backed summary cache as a list of rows
  of the table `input(url, summary, timeAdded)` in rowid (insertion)
  order; timestamps are modelled as integers, only their order is used.
  `InputCache.setitem` mirrors `__setitem__`, which executes only an SQL
  UPDATE statement: it rewrites the matching rows and never inserts.
* the f-string SQL texts of `__contains__` / `__getitem__` /
  `__setitem__` are reproduced verbatim and a small model of SQL
  string-literal scanning shows what statement a spliced URL yields.
* `multiline_input` embeds the interactive line loop over an explicit
  list of pending input lines; exhausting the list models `EOFError`.
* `input_summaries` embeds the per-record annotation loop, threading the
  cache store, the input stream, and the trace of cache writes.
* `foxtail` embeds the query-interval validation prefix of the `foxtail`
  driver, with the database pipeline abstracted to an oracle.
* `format_results_markdown` / `_table` / `_csv` / `_json` embed the four
  renderers, including `itertools.groupby` run semantics and the
  dict-comprehension whose later runs overwrite earlier ones.

Python string comparison (code-point lexicographic) is modelled by
`py_str_lt`; Python `str.strip` by `py_strip` (ASCII whitespace);
`str.replace` with the single-character patterns the source uses by
`replace_char`.
-/

/-- Code-point lexicographic comparison of character lists: the model of
Python string `<`. -/
def py_str_lt : List Char → List Char → Bool
  | [], [] => false
  | [], _ :: _ => true
  | _ :: _, [] => false
  | a :: as, b :: bs => if a < b then true else if b < a then false else py_str_lt as bs

/-- Python `a < b` on strings. -/
def py_lt (a b : String) : Bool := py_str_lt a.data b.data

/-- Python `a <= b` on strings (used as the sort order of `sorted`). -/
def py_le (a b : String) : Bool := !(py_str_lt b.data a.data)

/-- Characters removed by Python `str.strip()` (ASCII whitespace). -/
def is_py_space (c : Char) : Bool :=
  c = ' ' || c = '\t' || c = '\n' || c = '\r' || c = Char.ofNat 11 || c = Char.ofNat 12

/-- Python `str.strip()`: drop leading and trailing whitespace. -/
def py_strip (s : String) : String :=
  String.mk (((s.data.dropWhile is_py_space).reverse.dropWhile is_py_space).reverse)

/-- Python `str.replace(pat, rep)` for a single-character pattern `pat`
(the only shape the source uses). -/
def replace_char_list (pat : Char) (rep : List Char) : List Char → List Char
  | [] => []
  | c :: rest => (if c = pat then rep else [c]) ++ replace_char_list pat rep rest

/-- `s.replace(pat, rep)` on strings, single-character pattern. -/
def replace_char (s : String) (pat : Char) (rep : String) : String :=
  String.mk (replace_char_list pat rep.data s.data)

/-- Python `sep.join(lines)`. -/
def join_with (sep : String) : List String → String
  | [] => ""
  | [x] => x
  | x :: y :: xs => x ++ sep ++ join_with sep (y :: xs)

/-- Days-to-civil-date conversion (proleptic Gregorian), the arithmetic
behind `datetime.date` for an epoch day count. -/
def civil_from_days (z0 : Int) : Int × Int × Int :=
  let z := z0 + 719468
  let era := Int.fdiv z 146097
  let doe := z - era * 146097
  let yoe := Int.fdiv (doe - Int.fdiv doe 1460 + Int.fdiv doe 36524 - Int.fdiv doe 146096) 365
  let y := yoe + era * 400
  let doy := doe - (365 * yoe + Int.fdiv yoe 4 - Int.fdiv yoe 100)
  let mp := Int.fdiv (5 * doy + 2) 153
  let d := doy - Int.fdiv (153 * mp + 2) 5 + 1
  let m := mp + (if mp < 10 then 3 else -9)
  (y + (if m ≤ 2 then 1 else 0), m, d)

/-- Zero-pad a (nonnegative) integer to two digits. -/
def pad2 (n : Int) : String := if n < 10 then "0" ++ toString n else toString n

/-- Zero-pad a (nonnegative) integer to four digits. -/
def pad4 (n : Int) : String :=
  if n < 10 then "000" ++ toString n
  else if n < 100 then "00" ++ toString n
  else if n < 1000 then "0" ++ toString n
  else toString n

/-- `date.isoformat()` for an epoch day count. -/
def iso_date_of_day (day : Int) : String :=
  let ymd := civil_from_days day
  pad4 ymd.1 ++ "-" ++ pad2 ymd.2.1 ++ "-" ++ pad2 ymd.2.2

/-- The `Result` dataclass: one bookmark record. -/
structure Result where
  url : String
  title : String
  time : Int
  summary : String := ""
deriving DecidableEq

/-- `Result.get_date`: convert the microsecond timestamp to seconds with
truncation toward zero, shift into the local timezone (`tz` seconds
offset), and take the ISO calendar date. -/
def Result.get_date (tz : Int) (r : Result) : String :=
  let secs := Int.tdiv r.time 1000000
  iso_date_of_day (Int.fdiv (secs + tz) 86400)

/-- One row of the sqlite table `input(url, summary, timeAdded)`. -/
structure CacheEntry where
  url : String
  summary : String
  timeAdded : Int
deriving DecidableEq

/-- The backing store contents, in rowid (insertion) order. -/
abbrev Store := List CacheEntry

namespace InputCache

/-- `timedelta(days=30)` in seconds. -/
def retention_seconds : Int := 30 * 86400

/-- `InputCache.__init__`: with no backing file (`none`) a fresh empty
table is created; with an existing store the rows with
`timeAdded < now - 30 days` are deleted. -/
def init (existing : Option Store) (now : Int) : Store :=
  match existing with
  | none => []
  | some s => s.filter (fun e => !decide (e.timeAdded < now - retention_seconds))

/-- `InputCache.__contains__`: a row with this url exists. -/
def contains (s : Store) (url : String) : Bool :=
  s.any (fun e => e.url == url)

/-- `InputCache.__getitem__`: the summary of the first matching row, or
`none` for the `KeyError` branch. -/
def getitem (s : Store) (url : String) : Option String :=
  (s.find? (fun e => e.url == url)).map (fun e => e.summary)

/-- `InputCache.__setitem__`: the UPDATE statement rewrites summary and
timeAdded of every row whose url matches; no row is ever inserted. -/
def setitem (s : Store) (url summary : String) (now : Int) : Store :=
  s.map (fun e => if e.url == url then { e with summary := summary, timeAdded := now } else e)

/-- `InputCache.get`: fallback lookup. -/
def get (s : Store) (url fallback : String) : String :=
  if contains s url then (getitem s url).getD fallback else fallback

end InputCache

/-- A sequence of `set` calls applied in order to a store. -/
def apply_sets (s : Store) (ops : List (String × String × Int)) : Store :=
  ops.foldl (fun st op => InputCache.setitem st op.1 op.2.1 op.2.2) s

/-! ### The f-string SQL statements and SQL literal scanning -/

/-- The statement text built by `__contains__`:
`f"SELECT url FROM input WHERE url = '{url}';"`. -/
def contains_query (url : String) : String :=
  "SELECT url FROM input WHERE url = \x27" ++ url ++ "\x27;"

/-- The statement text built by `__getitem__` (triple-quoted in the
source, whitespace reproduced). -/
def getitem_query (url : String) : String :=
  "\n            SELECT url, summary\n            FROM input\n            WHERE url = \x27" ++
    url ++ "\x27;\n            "

/-- The statement text built by `__setitem__` (triple-quoted in the
source, whitespace reproduced); `cur_time` is rendered in decimal. -/
def setitem_query (summary : String) (cur_time : Int) (url : String) : String :=
  "\n            UPDATE input\n            SET summary = \x27" ++ summary ++
    "\x27, timeAdded = " ++ toString cur_time ++
    "\n            WHERE url = \x27" ++ url ++ "\x27;\n            "

/-- Skip to just past the first single-quote character. -/
def sql_after_first_quote : List Char → Option (List Char)
  | [] => none
  | c :: rest => if c = Char.ofNat 39 then some rest else sql_after_first_quote rest

/-- Scan an SQL string literal body: it ends at the next single quote,
with `''` denoting an escaped quote; an unterminated literal is `none`.
Returns the literal content and the text after the closing quote. -/
def sql_read_literal : List Char → Option (List Char × List Char)
  | [] => none
  | c :: rest =>
    if c = Char.ofNat 39 then
      match rest with
      | [] => some ([], [])
      | c2 :: rest2 =>
        if c2 = Char.ofNat 39 then
          (sql_read_literal rest2).map (fun p => (c :: p.1, p.2))
        else some ([], rest)
    else (sql_read_literal rest).map (fun p => (c :: p.1, p.2))

/-- The first SQL string literal of a statement and the text following
its closing quote. -/
def sql_first_literal (s : String) : Option (String × String) :=
  (sql_after_first_quote s.data).bind
    (fun r => (sql_read_literal r).map (fun p => (String.mk p.1, String.mk p.2)))

/-- The second SQL string literal of a statement (used for the UPDATE,
whose first literal is the spliced summary). -/
def sql_second_literal (s : String) : Option (String × String) :=
  (sql_first_literal s).bind (fun p => sql_first_literal p.2)

/-! ### `multiline_input` -/

/-- The `while n_lines < max_returns` loop of `multiline_input`: read a
line, append it, count it when empty; `none` models `EOFError` when the
pending input `stream` is exhausted.  Returns the collected lines and
the unconsumed stream. -/
def multiline_input_loop (maxReturns : Nat) :
    List String → List String → Nat → Option (List String × List String)
  | stream, inp, nLines =>
    if maxReturns ≤ nLines then some (inp, stream)
    else
      match stream with
      | [] => none
      | x :: rest =>
        multiline_input_loop maxReturns rest (inp ++ [x]) (if x = "" then nLines + 1 else nLines)

/-- `multiline_input(prompt, max_returns)` over a pending input stream:
the first line always counts toward the empty-line total when empty; the
collected lines are joined with newlines and stripped. -/
def multiline_input (maxReturns : Nat) (stream : List String) : Option (String × List String) :=
  match stream with
  | [] => none
  | x :: rest =>
    (multiline_input_loop maxReturns rest [x] (if x = "" then 1 else 0)).map
      (fun p => (py_strip (join_with "\n" p.1), p.2))

/-- The prefix of the stream up to and including the `k`-th empty line,
with the rest of the stream; `none` when fewer than `k` empty lines
remain.  (Reference function for the cumulative-count termination
behaviour.) -/
def take_until_empties : Nat → List String → Option (List String × List String)
  | 0, stream => some ([], stream)
  | _ + 1, [] => none
  | k + 1, x :: rest =>
    (take_until_empties (if x = "" then k else k + 1) rest).map (fun p => (x :: p.1, p.2))

/-- Loop that terminates only on two CONSECUTIVE empty lines, an empty
first line counting as one.  Modelled from the claim's words, for
comparison with `multiline_input` (which the source implements with a
cumulative count instead). -/
def multiline_input_consecutive_loop :
    List String → List String → Nat → Option (List String × List String)
  | stream, inp, consec =>
    if 2 ≤ consec then some (inp, stream)
    else
      match stream with
      | [] => none
      | x :: rest =>
        multiline_input_consecutive_loop rest (inp ++ [x]) (if x = "" then consec + 1 else 0)

/-- Modelled from the claim's words: `multiline_input` as it would
behave if termination required two consecutive empty lines. -/
def multiline_input_consecutive (stream : List String) : Option (String × List String) :=
  match stream with
  | [] => none
  | x :: rest =>
    (multiline_input_consecutive_loop rest [x] (if x = "" then 1 else 0)).map
      (fun p => (py_strip (join_with "\n" p.1), p.2))

/-! ### `input_summaries` -/

/-- `result.summary = summary` (dataclass field assignment). -/
def with_summary (r : Result) (s : String) : Result := { r with summary := s }

/-- The `for i, result in enumerate(results)` loop of `input_summaries`:
for each record, read a multi-line summary (EOF breaks the loop, leaving
the remaining records untouched), write it to the cache with
`cache[result.url] = summary`, and set `result.summary`.  `now` is the
clock value used for the cache writes.  Returns the updated records, the
final store, the trace of `set` calls in order, and the leftover
stream. -/
def input_summaries_loop (now : Int) :
    Store → List String → List Result →
      List Result × Store × List (String × String) × List String
  | store, stream, [] => ([], store, [], stream)
  | store, stream, r :: rest =>
    match multiline_input 2 stream with
    | none => (r :: rest, store, [], stream)
    | some (summary, stream2) =>
      let out := input_summaries_loop now (InputCache.setitem store r.url summary now) stream2 rest
      (with_summary r summary :: out.1, out.2.1, (r.url, summary) :: out.2.2.1, out.2.2.2)

/-- `input_summaries(results)` with the cache store, clock, and pending
interactive input made explicit.  (The read-only
`cache.get(result.url, "")` display lookup has no effect on the state or
the returned records and is omitted; prints are not modelled.) -/
def input_summaries (store : Store) (now : Int) (stream : List String) (results : List Result) :
    List Result × Store × List (String × String) × List String :=
  input_summaries_loop now store stream results

/-! ### The `foxtail` driver's query-interval validation -/

/-- Split a character list on a separator character. -/
def split_on_char (sep : Char) : List Char → List (List Char)
  | [] => [[]]
  | c :: rest =>
    let r := split_on_char sep rest
    if c = sep then [] :: r
    else
      match r with
      | [] => [[c]]
      | g :: gs => (c :: g) :: gs

/-- Parse a nonempty all-digit character list. -/
def parse_digits (cs : List Char) : Option Nat :=
  if cs ≠ [] && cs.all Char.isDigit then
    some (cs.foldl (fun a c => a * 10 + (c.toNat - 48)) 0)
  else none

/-- A model of `datetime.fromisoformat` restricted to the offset-naive
grammar `YYYY-MM-DD[THH[:MM[:SS]]]` with a literal `T` separator: the
parsed instant as a single integer key that is strictly monotone in
(year, month, day, hour, minute, second).  Other inputs are `none`. -/
def iso_key (s : String) : Option Int :=
  let date_time := split_on_char (Char.ofNat 84) s.data
  let date_part :=
    match date_time with
    | [d] => some (d, ([] : List Char))
    | [d, t] => some (d, t)
    | _ => none
  date_part.bind (fun p =>
    match (split_on_char (Char.ofNat 45) p.1).map parse_digits with
    | [some y, some m, some d] =>
      let hms :=
        match p.2 with
        | [] => some (0, 0, 0)
        | t =>
          match (split_on_char (Char.ofNat 58) t).map parse_digits with
          | [some h] => some (h, 0, 0)
          | [some h, some mi] => some (h, mi, 0)
          | [some h, some mi, some sec] => some (h, mi, sec)
          | _ => none
      hms.map (fun q =>
        (Int.ofNat ((((((y * 13 + m) * 32 + d) * 25 + q.1) * 61 + q.2.1) * 61 + q.2.2))))
    | _ => none)

/-- The validation prefix of `foxtail(args)`: `args.before < args.after`
is a Python string comparison and raises `ValueError("Invalid query
interval")` before any file is located, copied, or queried.  The whole
database pipeline after the two `fromisoformat` calls is abstracted into
`oracle`, applied to the parsed endpoints. -/
def foxtail (after before : String) (oracle : Int → Int → List Result) :
    Except String (List Result) :=
  if py_lt before after then Except.error "Invalid query interval"
  else
    match iso_key after, iso_key before with
    | some a, some b => Except.ok (oracle a b)
    | _, _ => Except.error "Invalid isoformat string"

/-! ### Renderers -/

/-- `sorted(results, key=lambda x: x.time)` (stable). -/
def sortByTime (l : List Result) : List Result :=
  List.insertionSort (fun a b => a.time ≤ b.time) l

instance : IsTotal Result (fun a b => a.time ≤ b.time) :=
  ⟨fun a b => Int.le_total a.time b.time⟩

instance : IsTrans Result (fun a b => a.time ≤ b.time) :=
  ⟨fun _ _ _ h1 h2 => Int.le_trans h1 h2⟩

/-- `sorted(keys)` for Python strings (stable, code-point order). -/
def sortKeys (l : List String) : List String :=
  List.insertionSort (fun a b => py_le a b = true) l

/-- `itertools.groupby(results, key)`: the list of consecutive runs,
each with its key. -/
def runs_by (key : Result → String) : List Result → List (String × List Result)
  | [] => []
  | r :: rest =>
    match runs_by key rest with
    | [] => [(key r, [r])]
    | (k, g) :: tl =>
      if key r = k then (k, r :: g) :: tl else (key r, [r]) :: (k, g) :: tl

/-- The dict comprehension of `format_results_markdown`: each run sorted
by time, keyed by its date.  A Python dict keeps one value per key, the
value of the LAST occurrence; runs are kept in a list here and the
lookup below takes the last binding. -/
def grouped_results (tz : Int) (results : List Result) : List (String × List Result) :=
  (runs_by (Result.get_date tz) results).map (fun p => (p.1, sortByTime p.2))

/-- Dict key set in insertion order (first occurrence). -/
def dict_keys_aux : List String → List (String × List Result) → List String
  | _, [] => []
  | seen, p :: rest =>
    if seen.contains p.1 then dict_keys_aux seen rest
    else p.1 :: dict_keys_aux (p.1 :: seen) rest

/-- `grouped_results.keys()`. -/
def dict_keys (l : List (String × List Result)) : List String := dict_keys_aux [] l

/-- Dict lookup: the value of the last binding of the key. -/
def dict_get (l : List (String × List Result)) (k : String) : List Result :=
  (((l.filter (fun p => p.1 = k)).getLast?).map (fun p => p.2)).getD []

/-- `sorted(grouped_results.keys())`. -/
def md_dates (tz : Int) (results : List Result) : List String :=
  sortKeys (dict_keys (grouped_results tz results))

/-- `sorted(grouped_results[date], key=lambda x: x.time)`. -/
def md_group (tz : Int) (results : List Result) (date : String) : List Result :=
  sortByTime (dict_get (grouped_results tz results) date)

/-- The lines emitted for one record in markdown: the escaped link line,
a blank line, and (for a nonempty summary) the summary and a blank
line. -/
def md_entry_lines (r : Result) : List String :=
  let title_escaped := replace_char (replace_char r.title (Char.ofNat 93) "\\]")
    (Char.ofNat 91) "\\["
  ["[" ++ title_escaped ++ "](" ++ r.url ++ ")", ""] ++
    (if r.summary ≠ "" then [r.summary, ""] else [])

/-- `format_results_markdown`: group the UNSORTED record list into
consecutive runs by date, collapse the runs into a dict (later runs
overwrite earlier ones), then emit the dates in ascending order, each as
a heading followed by its kept records in ascending time order. -/
def format_results_markdown (tz : Int) (results : List Result) : List String :=
  (md_dates tz results).flatMap
    (fun date => ["## " ++ date, ""] ++ (md_group tz results date).flatMap md_entry_lines)

/-- The four tab-joined fields of one table line. -/
def table_line (tz : Int) (r : Result) : String :=
  join_with "\t" [r.get_date tz, r.title, r.url, replace_char r.summary '\n' "\\n"]

/-- `format_results_table`: one tab-joined line per record, records
sorted by time ascending. -/
def format_results_table (tz : Int) (results : List Result) : List String :=
  (sortByTime results).map (table_line tz)

/-- The four comma-joined fields of one csv line. -/
def csv_line (tz : Int) (r : Result) : String :=
  join_with "," [r.get_date tz, r.title, r.url, replace_char r.summary '\n' "\\n"]

/-- `format_results_csv`: one comma-joined line per record, records
sorted by time ascending. -/
def format_results_csv (tz : Int) (results : List Result) : List String :=
  (sortByTime results).map (csv_line tz)

/-- One lowercase hexadecimal digit. -/
def hex_digit (m : Nat) : Char := if m < 10 then Char.ofNat (48 + m) else Char.ofNat (87 + m)

/-- Four lowercase hexadecimal digits. -/
def hex4 (n : Nat) : String :=
  String.mk [hex_digit (n / 4096 % 16), hex_digit (n / 256 % 16),
    hex_digit (n / 16 % 16), hex_digit (n % 16)]

/-- `json.dumps` escaping of one character (`ensure_ascii=True`): quote,
backslash and the short control escapes, `\uXXXX` for other characters
outside printable ASCII, surrogate pairs beyond the BMP. -/
def json_escape_char (c : Char) : List Char :=
  let n := c.toNat
  if n = 34 then [Char.ofNat 92, Char.ofNat 34]
  else if n = 92 then [Char.ofNat 92, Char.ofNat 92]
  else if n = 8 then [Char.ofNat 92, 'b']
  else if n = 9 then [Char.ofNat 92, 't']
  else if n = 10 then [Char.ofNat 92, 'n']
  else if n = 12 then [Char.ofNat 92, 'f']
  else if n = 13 then [Char.ofNat 92, 'r']
  else if 32 ≤ n && n ≤ 126 then [c]
  else if n ≤ 65535 then Char.ofNat 92 :: 'u' :: (hex4 n).data
  else
    let m := n - 65536
    (Char.ofNat 92 :: 'u' :: (hex4 (55296 + m / 1024)).data) ++
      (Char.ofNat 92 :: 'u' :: (hex4 (56320 + m % 1024)).data)

/-- `json.dumps` escaping of a string body. -/
def json_escape (s : String) : String :=
  String.mk (s.data.flatMap json_escape_char)

/-- The six lines `json.dumps(..., indent=2)` prints for one record
object (the closing brace still without the separating comma). -/
def json_obj (tz : Int) (r : Result) : List String :=
  ["    \x7b",
   "      \"date\": \"" ++ json_escape (r.get_date tz) ++ "\",",
   "      \"title\": \"" ++ json_escape r.title ++ "\",",
   "      \"url\": \"" ++ json_escape r.url ++ "\",",
   "      \"summary\": \"" ++ json_escape (replace_char r.summary '\n' "\\n") ++ "\"",
   "    \x7d"]

/-- Join the per-record line blocks with the `,` that `json.dumps`
appends to every closing brace but the last. -/
def join_json_blocks : List (List String) → List String
  | [] => []
  | [b] => b
  | b :: b2 :: bs => (b.dropLast ++ ["    \x7d,"]) ++ join_json_blocks (b2 :: bs)

/-- `format_results_json`: the lines of
`json.dumps({"results": [...]}, indent=2)` over the time-sorted
records. -/
def format_results_json (tz : Int) (results : List Result) : List String :=
  match sortByTime results with
  | [] => ["\x7b", "  \"results\": []", "\x7d"]
  | r :: rs =>
    ["\x7b", "  \"results\": ["] ++ join_json_blocks ((r :: rs).map (json_obj tz)) ++
      ["  ]", "\x7d"]

/-! # Theorems -/

/-- C1 evidence: the claimed upsert round-trip fails on the code.  On a
freshly created store, `set("https://a", "hello")` followed by
`get("https://a")` does NOT return the set value: `__setitem__` executes
only an SQL UPDATE, which matches no row, so the lookup still signals
not-found (`KeyError`) and membership is still false. -/
theorem c1_set_then_get_fails_on_fresh_store :
    InputCache.getitem
        (InputCache.setitem (InputCache.init none 0) "https://a" "hello" 5) "https://a" = none ∧
      InputCache.contains
        (InputCache.setitem (InputCache.init none 0) "https://a" "hello" 5) "https://a" = false :=
  ⟨rfl, rfl⟩

/-- C9: cache operations are not total over arbitrary URLs.  For the URL
`a'b` (which contains a single quote), the statement texts that
`__contains__`, `__getitem__` and `__setitem__` splice it into do not
contain it as their (relevant) SQL string literal: the literal the
database parses is `a`, followed by the stray text `b';`, so the
statement is a syntax error or acts on the different key `a`. -/
theorem c9_sql_splice_breaks_on_quote :
    List.contains ("a\x27b").data (Char.ofNat 39) = true ∧
      sql_first_literal (contains_query "a\x27b") = some ("a", "b\x27;") ∧
      sql_first_literal (getitem_query "a\x27b") = some ("a", "b\x27;\n            ") ∧
      sql_second_literal (setitem_query "s" 0 "a\x27b") = some ("a", "b\x27;\n            ") ∧
      "a" ≠ "a\x27b" ∧ "b\x27;" ≠ ";" := by
  refine ⟨rfl, rfl, rfl, rfl, by decide, by decide⟩

/-- C10: the markdown renderer silently drops records.  Records X and Z
share the derived date 1970-01-01 but are separated by Y (1970-01-02);
only the last consecutive run of that date survives the dict
comprehension, so X's link line is absent from the output while Z's and
Y's are present. -/
theorem c10_markdown_drops_earlier_run :
    format_results_markdown 0
        [{ url := "https://x", title := "X", time := 0 },
         { url := "https://y", title := "Y", time := 86400000000, summary := "note" },
         { url := "https://z", title := "Z", time := 7200000000 }] =
      ["## 1970-01-01", "", "[Z](https://z)", "",
       "## 1970-01-02", "", "[Y](https://y)", "", "note", ""] ∧
      Result.get_date 0 { url := "https://x", title := "X", time := 0 } =
        Result.get_date 0 { url := "https://z", title := "Z", time := 7200000000 } ∧
      Result.get_date 0 { url := "https://y", title := "Y", time := 86400000000, summary := "note" } ≠
        Result.get_date 0 { url := "https://x", title := "X", time := 0 } ∧
      ¬ "[X](https://x)" ∈ format_results_markdown 0
        [{ url := "https://x", title := "X", time := 0 },
         { url := "https://y", title := "Y", time := 86400000000, summary := "note" },
         { url := "https://z", title := "Z", time := 7200000000 }] := by
  refine ⟨by decide, by decide, by decide, by decide⟩

/-- C4 counterexample: the input lines a, EMPTY, b, EMPTY, c contain no
two consecutive empty lines, yet `multiline_input` terminates after the
fourth line (the cumulative empty-line count reaches 2) with summary
`a\n\nb`, leaving `c` unread; the consecutive-empty-lines loop the claim
describes would instead exhaust the stream (EOF). -/
theorem c4_counterexample :
    multiline_input 2 ["a", "", "b", "", "c"] = some ("a\n\nb", ["c"]) ∧
      multiline_input_consecutive ["a", "", "b", "", "c"] = none := by
  refine ⟨by decide, by decide⟩

/-- C8 counterexample: the strings 2024-06-01T00:00:00 (after) and
2024-06-01T00:00 (before) denote the same instant (`iso_key` agrees on
them), so the claim says no input-validation error may be raised; but
the code compares the raw strings lexicographically and raises
`ValueError("Invalid query interval")`. -/
theorem c8_counterexample :
    foxtail "2024-06-01T00:00:00" "2024-06-01T00:00" (fun _ _ => []) =
        Except.error "Invalid query interval" ∧
      iso_key "2024-06-01T00:00:00" = iso_key "2024-06-01T00:00" ∧
      (iso_key "2024-06-01T00:00").isSome = true :=
  ⟨rfl, rfl, rfl⟩

/-- C3 counterexample: the table format does not group records by date
nor prefix groups with a date heading — a single record renders as a
single tab-joined line (with the date as a field), not as a heading
followed by the record; and the markdown format does not render every
record: with records A, C sharing 1970-01-01 separated by B
(1970-01-02), A's link line is missing from the markdown output. -/
theorem c3_counterexample :
    format_results_table 0 [{ url := "https://a", title := "A", time := 0 }] =
        ["1970-01-01\tA\thttps://a\t"] ∧
      (format_results_table 0 [{ url := "https://a", title := "A", time := 0 }]).length = 1 ∧
      ¬ "[A](https://a)" ∈ format_results_markdown 0
        [{ url := "https://a", title := "A", time := 0 },
         { url := "https://b", title := "B", time := 86400000000 },
         { url := "https://c", title := "C", time := 3600000000 }] ∧
      "[C](https://c)" ∈ format_results_markdown 0
        [{ url := "https://a", title := "A", time := 0 },
         { url := "https://b", title := "B", time := 86400000000 },
         { url := "https://c", title := "C", time := 3600000000 }] ∧
      "[B](https://b)" ∈ format_results_markdown 0
        [{ url := "https://a", title := "A", time := 0 },
         { url := "https://b", title := "B", time := 86400000000 },
         { url := "https://c", title := "C", time := 3600000000 }] := by
  refine ⟨by decide, by decide, by decide, by decide, by decide⟩

/-- Applying any sequence of `set` calls to an empty store leaves it
empty: `__setitem__` only maps over existing rows. -/
theorem apply_sets_nil_eq_nil : ∀ ops : List (String × String × Int), apply_sets [] ops = [] := by
  intro ops
  induction ops with
  | nil => rfl
  | cons op ops ih => simpa [apply_sets, InputCache.setitem] using ih

/-- C2: the cache as implemented can never gain an entry.  `set`
preserves the number of rows (UPDATE, never INSERT), the open-time sweep
only removes rows, and consequently, starting from the empty store that
`InputCache` creates, after any sequence of `set` calls every
membership test is false and every lookup signals not-found. -/
theorem c2_cache_never_gains_entries :
    (∀ (s : Store) (url summary : String) (now : Int),
        (InputCache.setitem s url summary now).length = s.length) ∧
      (∀ (s : Store) (now : Int), (InputCache.init (some s) now).length ≤ s.length) ∧
      ∀ (t : Int) (ops : List (String × String × Int)) (url : String),
        InputCache.contains (apply_sets (InputCache.init none t) ops) url = false ∧
          InputCache.getitem (apply_sets (InputCache.init none t) ops) url = none := by
  refine ⟨fun s url summary now => List.length_map _ _,
    fun s now => List.length_filter_le _ _, ?_⟩
  intro t ops url
  have h : apply_sets (InputCache.init none t) ops = [] := apply_sets_nil_eq_nil ops
  rw [h]
  exact ⟨rfl, rfl⟩

/-- C6: opening with no backing store yields the empty store; opening an
existing store keeps exactly the entries with
`timeAdded ≥ now - 30 days` — every strictly older entry is deleted by
the sweep, every entry inside the window survives. -/
theorem c6_open_time_sweep :
    (∀ now : Int, InputCache.init none now = []) ∧
      ∀ (s : Store) (now : Int) (e : CacheEntry),
        e ∈ InputCache.init (some s) now ↔
          e ∈ s ∧ now - InputCache.retention_seconds ≤ e.timeAdded := by
  refine ⟨fun _ => rfl, ?_⟩
  intro s now e
  simp [InputCache.init, List.mem_filter, not_lt]

/-- Witness for C6: a concrete entry written at time 0 survives a sweep
at time 0 (it is inside the 30-day window). -/
theorem c6_open_time_sweep_witness :
    (⟨"https://a", "s", 0⟩ : CacheEntry) ∈
      InputCache.init (some [⟨"https://a", "s", 0⟩]) 0 :=
  (c6_open_time_sweep.2 [⟨"https://a", "s", 0⟩] 0 ⟨"https://a", "s", 0⟩).mpr
    ⟨by decide, by decide⟩

/-- The `multiline_input` while-loop consumes lines until the cumulative
number of empty lines read (counting the `nLines` already granted)
reaches `maxR`. -/
theorem multiline_input_loop_eq (maxR : Nat) :
    ∀ (stream inp : List String) (n : Nat),
      multiline_input_loop maxR stream inp n =
        (take_until_empties (maxR - n) stream).map (fun p => (inp ++ p.1, p.2)) := by
  intro stream
  induction stream with
  | nil =>
    intro inp n
    by_cases h : maxR ≤ n
    · have h0 : maxR - n = 0 := Nat.sub_eq_zero_of_le h
      simp [multiline_input_loop, h, h0, take_until_empties]
    · obtain ⟨k, hk⟩ : ∃ k, maxR - n = k + 1 := ⟨maxR - n - 1, by omega⟩
      simp [multiline_input_loop, h, hk, take_until_empties]
  | cons x rest ih =>
    intro inp n
    by_cases h : maxR ≤ n
    · have h0 : maxR - n = 0 := Nat.sub_eq_zero_of_le h
      simp [multiline_input_loop, h, h0, take_until_empties]
    · obtain ⟨k, hk⟩ : ∃ k, maxR - n = k + 1 := ⟨maxR - n - 1, by omega⟩
      by_cases hx : x = ""
      · have h2 : maxR - (n + 1) = k := by omega
        simp only [multiline_input_loop, h, if_false, hx, if_true, ite_true, ite_false, hk,
          take_until_empties, ih, h2, Option.map_map]
        simp [Function.comp_def]
      · have h2 : maxR - n = k + 1 := hk
        simp only [multiline_input_loop, h, if_false, hx, ite_true, ite_false, hk,
          take_until_empties, ih, Option.map_map]
        simp [Function.comp_def, hx, Nat.sub_sub, hk]

/-- `take_until_empties k` succeeds exactly when the stream still holds
at least `k` empty lines. -/
theorem take_until_empties_isSome :
    ∀ (stream : List String) (k : Nat),
      (take_until_empties k stream).isSome ↔ k ≤ stream.count "" := by
  intro stream
  induction stream with
  | nil =>
    intro k
    cases k with
    | zero => simp [take_until_empties]
    | succ k => simp [take_until_empties]
  | cons x rest ih =>
    intro k
    cases k with
    | zero => simp [take_until_empties]
    | succ k =>
      by_cases hx : x = ""
      · simp [take_until_empties, hx, Option.isSome_map', ih, List.count_cons]
      · simp [take_until_empties, hx, Option.isSome_map', ih, List.count_cons]

/-- C4 as amended: `multiline_input 2` terminates exactly when the
CUMULATIVE number of empty lines entered reaches two — an empty first
line counts, and the two empty lines need not be consecutive nor
trailing; the consumed lines are joined with newlines and stripped of
leading/trailing whitespace.  It succeeds iff the pending input holds at
least two empty lines, and signals EOF otherwise. -/
theorem c4_terminates_on_two_cumulative_empty_lines :
    ∀ stream : List String,
      multiline_input 2 stream =
          (take_until_empties 2 stream).map (fun p => (py_strip (join_with "\n" p.1), p.2)) ∧
        ((multiline_input 2 stream).isSome ↔ 2 ≤ stream.count "") := by
  intro stream
  have hmain : multiline_input 2 stream =
      (take_until_empties 2 stream).map (fun p => (py_strip (join_with "\n" p.1), p.2)) := by
    cases stream with
    | nil => simp [multiline_input, take_until_empties]
    | cons x rest =>
      by_cases hx : x = ""
      · simp only [multiline_input, hx, ite_true, multiline_input_loop_eq, take_until_empties,
          Option.map_map]
        simp [Function.comp_def]
      · simp only [multiline_input, hx, ite_true, ite_false, multiline_input_loop_eq,
          take_until_empties, Option.map_map]
        simp [Function.comp_def, hx]
  refine ⟨hmain, ?_⟩
  rw [hmain, Option.isSome_map']
  exact take_until_empties_isSome stream 2

/-- Witness for C4: on the concrete stream of two empty lines the
characterization applies and the prompt loop terminates. -/
theorem c4_terminates_witness : (multiline_input 2 ["", ""]).isSome :=
  ((c4_terminates_on_two_cumulative_empty_lines ["", ""]).2).mpr (by decide)

/-- Full characterization of the annotation loop: writing `k` for the
number of completed prompts (the length of the `set`-call trace),
the returned records are the first `k` input records with their entered
summaries substituted followed by the remaining records unchanged; the
trace pairs each processed record's url, in input order, with its
entered summary; and the final store is the input store with the traced
`set` calls applied in order. -/
theorem input_summaries_loop_spec :
    ∀ (results : List Result) (store : Store) (stream : List String) (now : Int),
      (input_summaries_loop now store stream results).2.2.1.length ≤ results.length ∧
        (input_summaries_loop now store stream results).1 =
          List.zipWith with_summary
              (results.take (input_summaries_loop now store stream results).2.2.1.length)
              ((input_summaries_loop now store stream results).2.2.1.map Prod.snd) ++
            results.drop (input_summaries_loop now store stream results).2.2.1.length ∧
        (input_summaries_loop now store stream results).2.2.1.map Prod.fst =
          (results.take (input_summaries_loop now store stream results).2.2.1.length).map
            (fun r => r.url) ∧
        (input_summaries_loop now store stream results).2.1 =
          apply_sets store
            ((input_summaries_loop now store stream results).2.2.1.map
              (fun p => (p.1, p.2, now))) := by
  intro results
  induction results with
  | nil =>
    intro store stream now
    simp [input_summaries_loop, apply_sets]
  | cons r rest ih =>
    intro store stream now
    cases hml : multiline_input 2 stream with
    | none =>
      simp [input_summaries_loop, hml, apply_sets]
    | some p =>
      obtain ⟨summary, stream2⟩ := p
      have h := ih (InputCache.setitem store r.url summary now) stream2 now
      simp only [input_summaries_loop, hml, List.length_cons, List.map_cons, List.take_succ_cons,
        List.drop_succ_cons, List.zipWith_cons_cons, List.cons_append, apply_sets,
        List.foldl_cons]
      refine ⟨Nat.succ_le_succ h.1, ?_, ?_, ?_⟩
      · exact congrArg (with_summary r summary :: ·) h.2.1
      · exact congrArg (r.url :: ·) h.2.2.1
      · exact h.2.2.2

/-- Substituting summaries does not disturb any other projection of the
zipped records. -/
theorem zipWith_with_summary_map {α : Type} (f : Result → α)
    (hf : ∀ r s, f (with_summary r s) = f r) :
    ∀ (l1 : List Result) (l2 : List String),
      (List.zipWith with_summary l1 l2).map f = (l1.take l2.length).map f := by
  intro l1
  induction l1 with
  | nil => intro l2; simp
  | cons r l1 ih =>
    intro l2
    cases l2 with
    | nil => simp
    | cons s l2 => simp [hf, ih]

/-- Any projection unchanged by `with_summary` is preserved pointwise by
the annotation loop. -/
theorem input_summaries_loop_map_proj {α : Type} (f : Result → α)
    (hf : ∀ r s, f (with_summary r s) = f r) :
    ∀ (store : Store) (stream : List String) (now : Int) (results : List Result),
      ((input_summaries_loop now store stream results).1).map f = results.map f := by
  intro store stream now results
  obtain ⟨hk, hrec, -, -⟩ := input_summaries_loop_spec results store stream now
  rw [hrec, List.map_append, zipWith_with_summary_map f hf]
  rw [List.length_map, List.take_take, Nat.min_self, ← List.map_append,
    List.take_append_drop]

/-- C7: the annotator is a frame over everything but `summary` — the
returned sequence has the same length as the input and the same url,
title and time at every position. -/
theorem c7_annotator_frame :
    ∀ (store : Store) (now : Int) (stream : List String) (results : List Result),
      ((input_summaries store now stream results).1).length = results.length ∧
        ((input_summaries store now stream results).1).map (fun r => r.url) =
          results.map (fun r => r.url) ∧
        ((input_summaries store now stream results).1).map (fun r => r.title) =
          results.map (fun r => r.title) ∧
        ((input_summaries store now stream results).1).map (fun r => r.time) =
          results.map (fun r => r.time) := by
  intro store now stream results
  have hurl := input_summaries_loop_map_proj (fun r => r.url) (fun _ _ => rfl)
    store stream now results
  have htitle := input_summaries_loop_map_proj (fun r => r.title) (fun _ _ => rfl)
    store stream now results
  have htime := input_summaries_loop_map_proj (fun r => r.time) (fun _ _ => rfl)
    store stream now results
  refine ⟨?_, hurl, htitle, htime⟩
  have := congrArg List.length hurl
  simpa using this

/-- C5: writing `k` for the number of records completed before
end-of-input (the length of the `set`-call trace), the annotator returns
ALL records — the first `k` with their newly entered summaries
substituted, the remaining ones unchanged — and the `set` calls it
issued are exactly `(url_i, summary_i)` for the first `k` records in
input order, applied to the store in that order.  Returning through the
`break` on EOF is the normal exit: the result is an ordinary record
list, not an error. -/
theorem c5_early_termination :
    ∀ (store : Store) (now : Int) (stream : List String) (results : List Result),
      ((input_summaries store now stream results).1).length = results.length ∧
        (input_summaries store now stream results).2.2.1.length ≤ results.length ∧
        (input_summaries store now stream results).1 =
          List.zipWith with_summary
              (results.take (input_summaries store now stream results).2.2.1.length)
              ((input_summaries store now stream results).2.2.1.map Prod.snd) ++
            results.drop (input_summaries store now stream results).2.2.1.length ∧
        (input_summaries store now stream results).2.2.1.map Prod.fst =
          (results.take (input_summaries store now stream results).2.2.1.length).map
            (fun r => r.url) ∧
        (input_summaries store now stream results).2.1 =
          apply_sets store
            ((input_summaries store now stream results).2.2.1.map (fun p => (p.1, p.2, now))) := by
  intro store now stream results
  obtain ⟨hk, hrec, htr, hst⟩ := input_summaries_loop_spec results store stream now
  refine ⟨?_, hk, hrec, htr, hst⟩
  have hurl := input_summaries_loop_map_proj (fun r => r.url) (fun _ _ => rfl)
    store stream now results
  have := congrArg List.length hurl
  simpa using this

/-- C8 as amended: the query-interval validation error is raised iff the
raw `before` STRING is lexicographically (code-point order) smaller than
the raw `after` string — not iff the parsed instants are out of order —
and when it is raised the result does not depend on the database oracle:
no I/O has been consulted. -/
theorem c8_validation_is_string_comparison :
    ∀ (after before : String) (o g : Int → Int → List Result),
      ((foxtail after before o = Except.error "Invalid query interval") ↔
          py_lt before after = true) ∧
        (py_lt before after = true → foxtail after before o = foxtail after before g) := by
  intro after before o g
  by_cases h : py_lt before after = true
  · exact ⟨iff_of_true (by simp [foxtail, h]) h, fun _ => by simp [foxtail, h]⟩
  · refine ⟨iff_of_false ?_ h, fun hlt => absurd hlt h⟩
    simp only [foxtail, h, if_false]
    cases iso_key after with
    | none => simp
    | some a =>
      cases iso_key before with
      | none => simp
      | some b => simp

/-- Witness for C8: with `after = "b"`, `before = "a"` the validation
error is raised. -/
theorem c8_validation_witness :
    foxtail "b" "a" (fun _ _ => []) = Except.error "Invalid query interval" :=
  ((c8_validation_is_string_comparison "b" "a" (fun _ _ => []) (fun _ _ => [])).1).mpr
    (by decide)

/-- Code-point comparison is asymmetric. -/
theorem py_str_lt_asymm :
    ∀ as bs : List Char, py_str_lt as bs = true → py_str_lt bs as = false := by
  intro as
  induction as with
  | nil =>
    intro bs h
    cases bs with
    | nil => simp [py_str_lt] at h
    | cons b bs => simp [py_str_lt]
  | cons a as ih =>
    intro bs h
    cases bs with
    | nil => simp [py_str_lt] at h
    | cons b bs =>
      by_cases h1 : a < b
      · simp [py_str_lt, h1, asymm h1, lt_asymm h1]
      · by_cases h2 : b < a
        · simp [py_str_lt, h1, h2] at h
        · simp only [py_str_lt, h1, h2, if_false, ite_false] at h
          simp [py_str_lt, h1, h2, ih bs h]

/-- If two character lists are each not below the other they are
equal. -/
theorem py_str_lt_connex :
    ∀ as bs : List Char, py_str_lt as bs = false → py_str_lt bs as = false → as = bs := by
  intro as
  induction as with
  | nil =>
    intro bs h1 h2
    cases bs with
    | nil => rfl
    | cons b bs => simp [py_str_lt] at h1
  | cons a as ih =>
    intro bs h1 h2
    cases bs with
    | nil => simp [py_str_lt] at h2
    | cons b bs =>
      by_cases hab : a < b
      · simp [py_str_lt, hab] at h1
      · by_cases hba : b < a
        · simp [py_str_lt, hba] at h2
        · have hEq : a = b := le_antisymm (le_of_not_lt hba) (le_of_not_lt hab)
          simp only [py_str_lt, hab, hba, if_false, ite_false] at h1 h2
          rw [hEq, ih bs h1 h2]

/-- A step of transitivity: anything below `as` is below `bs` or `bs` is
below `as`. -/
theorem py_str_lt_step :
    ∀ cs as bs : List Char, py_str_lt cs as = true →
      py_str_lt cs bs = true ∨ py_str_lt bs as = true := by
  intro cs
  induction cs with
  | nil =>
    intro as bs h
    cases as with
    | nil => simp [py_str_lt] at h
    | cons a as =>
      cases bs with
      | nil => right; simp [py_str_lt]
      | cons b bs => left; simp [py_str_lt]
  | cons c cs ih =>
    intro as bs h
    cases as with
    | nil => simp [py_str_lt] at h
    | cons a as =>
      cases bs with
      | nil => right; simp [py_str_lt]
      | cons b bs =>
        by_cases hcb : c < b
        · left; simp [py_str_lt, hcb]
        · by_cases hbc : b < c
          · right
            by_cases hca : c < a
            · simp [py_str_lt, lt_trans hbc hca]
            · by_cases hac : a < c
              · simp [py_str_lt, hca, hac] at h
              · have hEq : c = a := le_antisymm (le_of_not_lt hac) (le_of_not_lt hca)
                rw [hEq] at hbc
                simp [py_str_lt, hbc]
          · have hEq : c = b := le_antisymm (le_of_not_lt hbc) (le_of_not_lt hcb)
            subst hEq
            by_cases hca : c < a
            · right
              simp [py_str_lt, hca]
            · by_cases hac : a < c
              · simp [py_str_lt, hca, hac] at h
              · have hEq2 : c = a := le_antisymm (le_of_not_lt hac) (le_of_not_lt hca)
                subst hEq2
                simp only [py_str_lt, lt_irrefl, if_false, ite_false] at h
                rcases ih as bs h with hl | hr
                · left
                  simp [py_str_lt, lt_irrefl, hl]
                · right
                  simp [py_str_lt, lt_irrefl, hr]

instance : IsTotal String (fun a b => py_le a b = true) := by
  constructor
  intro a b
  by_cases h : py_str_lt b.data a.data = true
  · right
    simp [py_le, py_str_lt_asymm _ _ h]
  · left
    have hf : py_str_lt b.data a.data = false := Bool.eq_false_iff.mpr h
    simp [py_le, hf]

instance : IsTrans String (fun a b => py_le a b = true) := by
  constructor
  intro a b c hab hbc
  have h1 : py_str_lt b.data a.data = false := by simpa [py_le] using hab
  have h2 : py_str_lt c.data b.data = false := by simpa [py_le] using hbc
  by_contra hcon
  have h3 : py_str_lt c.data a.data = true := by
    rcases Bool.eq_false_or_eq_true (py_str_lt c.data a.data) with ht | hf
    · exact ht
    · exact absurd (by simp [py_le, hf]) hcon
  rcases py_str_lt_step c.data a.data b.data h3 with hl | hr
  · exact absurd hl (by simp [h2])
  · exact absurd hr (by simp [h1])

/-- Strictness: below-or-equal together with inequality gives strictly
below (code-point order). -/
theorem py_lt_of_le_of_ne {a b : String} (hle : py_le a b = true) (hne : a ≠ b) :
    py_lt a b = true := by
  have h1 : py_str_lt b.data a.data = false := by simpa [py_le] using hle
  rcases Bool.eq_false_or_eq_true (py_str_lt a.data b.data) with ht | hf
  · exact ht
  · exact absurd (congrArg String.mk (py_str_lt_connex a.data b.data hf h1)) hne

/-- Two pointwise pairwise facts combine. -/
theorem pairwise_and_of {α : Type} {R S : α → α → Prop} :
    ∀ {l : List α}, l.Pairwise R → l.Pairwise S →
      l.Pairwise (fun a b => R a b ∧ S a b) := by
  intro l
  induction l with
  | nil => intro _ _; exact List.Pairwise.nil
  | cons x xs ih =>
    intro hR hS
    rcases List.pairwise_cons.mp hR with ⟨hRx, hRxs⟩
    rcases List.pairwise_cons.mp hS with ⟨hSx, hSxs⟩
    exact List.pairwise_cons.mpr ⟨fun y hy => ⟨hRx y hy, hSx y hy⟩, ih hRxs hSxs⟩

/-- `getLast?` returns a member of the list. -/
theorem mem_of_getLast?_eq {α : Type} :
    ∀ (l : List α) (a : α), l.getLast? = some a → a ∈ l := by
  intro l
  induction l with
  | nil => intro a h; simp [List.getLast?] at h
  | cons x xs ih =>
    intro a h
    cases xs with
    | nil =>
      simp only [List.getLast?_singleton, Option.some.injEq] at h
      simp [h]
    | cons y ys =>
      rw [List.getLast?_cons_cons] at h
      exact List.mem_cons_of_mem x (ih a h)

/-- The dict key list holds no duplicates and avoids the already seen
keys. -/
theorem dict_keys_aux_nodup :
    ∀ (l : List (String × List Result)) (seen : List String),
      (dict_keys_aux seen l).Nodup ∧
        ∀ k ∈ dict_keys_aux seen l, seen.contains k = false := by
  intro l
  induction l with
  | nil => intro seen; simp [dict_keys_aux]
  | cons p rest ih =>
    intro seen
    by_cases h : seen.contains p.1 = true
    · rw [show dict_keys_aux seen (p :: rest) = dict_keys_aux seen rest from by
        unfold dict_keys_aux; rw [if_pos h]; cases rest <;> rfl]
      exact ih seen
    · have hcontains : seen.contains p.1 = false := Bool.eq_false_iff.mpr h
      rw [show dict_keys_aux seen (p :: rest) =
          p.1 :: dict_keys_aux (p.1 :: seen) rest from by
        unfold dict_keys_aux; rw [if_neg h]; cases rest <;> rfl]
      obtain ⟨hnodup, havoid⟩ := ih (p.1 :: seen)
      refine ⟨?_, ?_⟩
      · refine List.Pairwise.cons ?_ hnodup
        intro k hk hEq
        have hfalse := havoid k hk
        rw [← hEq] at hfalse
        simp [List.contains_cons] at hfalse
      · intro k hk
        rcases List.mem_cons.mp hk with hk1 | hk1
        · rw [hk1]; exact hcontains
        · have hfalse := havoid k hk1
          simp only [List.contains_cons, Bool.or_eq_false_iff] at hfalse
          exact hfalse.2

/-- `sorted(keys)` is a permutation of the keys. -/
theorem sortKeys_perm (l : List String) : (sortKeys l).Perm l :=
  List.perm_insertionSort _ l

/-- `sorted(keys)` is pairwise below-or-equal. -/
theorem sortKeys_sorted (l : List String) :
    (sortKeys l).Pairwise (fun a b => py_le a b = true) :=
  List.sorted_insertionSort _ l

/-- The emitted markdown date headings are pairwise STRICTLY ascending
in code-point order. -/
theorem md_dates_pairwise_lt (tz : Int) (results : List Result) :
    (md_dates tz results).Pairwise (fun a b => py_lt a b = true) := by
  have hnodup : (md_dates tz results).Nodup := by
    have h1 := (dict_keys_aux_nodup (grouped_results tz results) []).1
    exact ((sortKeys_perm (dict_keys (grouped_results tz results))).nodup_iff).mpr h1
  have hsorted := sortKeys_sorted (dict_keys (grouped_results tz results))
  have hcomb := pairwise_and_of hsorted hnodup
  exact hcomb.imp (fun hab => py_lt_of_le_of_ne hab.1 hab.2)

/-- `sorted(results, key=time)` is a permutation of the records. -/
theorem sortByTime_perm (l : List Result) : (sortByTime l).Perm l :=
  List.perm_insertionSort _ l

/-- `sorted(results, key=time)` is pairwise ascending in time. -/
theorem sortByTime_sorted (l : List Result) :
    (sortByTime l).Pairwise (fun a b => a.time ≤ b.time) :=
  List.sorted_insertionSort _ l

/-- Every record of every `groupby` run comes from the input list and
bears the run's key. -/
theorem runs_by_sound (key : Result → String) :
    ∀ (l : List Result) (p : String × List Result), p ∈ runs_by key l →
      ∀ r ∈ p.2, r ∈ l ∧ key r = p.1 := by
  intro l
  induction l with
  | nil => intro p hp; exact absurd hp (List.not_mem_nil p)
  | cons x rest ih =>
    intro p hp r hr
    cases hruns : runs_by key rest with
    | nil =>
      rw [hruns] at ih
      simp only [runs_by, hruns, List.mem_singleton] at hp
      subst hp
      rcases List.mem_singleton.mp hr with hEq
      subst hEq
      exact ⟨List.mem_cons_self _ _, rfl⟩
    | cons q tl =>
      simp only [runs_by, hruns] at hp
      by_cases hkey : key x = q.1
      · rw [if_pos hkey] at hp
        rcases List.mem_cons.mp hp with hp1 | hp1
        · subst hp1
          rcases List.mem_cons.mp hr with hr1 | hr1
          · subst hr1
            exact ⟨List.mem_cons_self _ _, hkey⟩
          · have := ih q (by rw [hruns]; exact List.mem_cons_self _ _) r hr1
            exact ⟨List.mem_cons_of_mem _ this.1, this.2⟩
        · have := ih p (by rw [hruns]; exact List.mem_cons_of_mem _ hp1) r hr
          exact ⟨List.mem_cons_of_mem _ this.1, this.2⟩
      · rw [if_neg hkey] at hp
        rcases List.mem_cons.mp hp with hp1 | hp1
        · subst hp1
          rcases List.mem_singleton.mp hr with hEq
          subst hEq
          exact ⟨List.mem_cons_self _ _, rfl⟩
        · have := ih p (by rw [hruns]; exact hp1) r hr
          exact ⟨List.mem_cons_of_mem _ this.1, this.2⟩

/-- Every record the markdown renderer emits under a date heading comes
from the input and has that derived date. -/
theorem md_group_sound (tz : Int) (results : List Result) (d : String) :
    ∀ r ∈ md_group tz results d, r ∈ results ∧ r.get_date tz = d := by
  intro r hr
  have hr2 : r ∈ dict_get (grouped_results tz results) d :=
    ((sortByTime_perm (dict_get (grouped_results tz results) d)).mem_iff).mp hr
  unfold dict_get at hr2
  cases hlast : ((grouped_results tz results).filter (fun p => p.1 = d)).getLast? with
  | none => rw [hlast] at hr2; simp at hr2
  | some p0 =>
    rw [hlast] at hr2
    simp at hr2
    have hp0 : p0 ∈ (grouped_results tz results).filter (fun p => p.1 = d) :=
      mem_of_getLast?_eq _ _ hlast
    have hp0mem : p0 ∈ grouped_results tz results := (List.mem_filter.mp hp0).1
    have hp0key : p0.1 = d := by
      have := (List.mem_filter.mp hp0).2
      simpa using this
    obtain ⟨q, hq, hqp⟩ := List.mem_map.mp hp0mem
    have hr3 : r ∈ sortByTime q.2 := by
      rw [← hqp] at hr2
      exact hr2
    have hr4 : r ∈ q.2 := ((sortByTime_perm q.2).mem_iff).mp hr3
    have hsound := runs_by_sound (Result.get_date tz) results q hq r hr4
    refine ⟨hsound.1, ?_⟩
    rw [hsound.2, ← hp0key, ← hqp]

/-- The per-object line block always has six lines. -/
theorem json_obj_length (tz : Int) (r : Result) : (json_obj tz r).length = 6 := rfl

/-- Joining six-line blocks with the comma separators keeps all lines. -/
theorem join_json_blocks_length :
    ∀ bs : List (List String), (∀ b ∈ bs, b.length = 6) →
      (join_json_blocks bs).length = 6 * bs.length := by
  intro bs
  induction bs with
  | nil => intro _; rfl
  | cons b bs ih =>
    intro h
    cases bs with
    | nil =>
      simp [join_json_blocks, h b (List.mem_cons_self _ _)]
    | cons b2 bs2 =>
      have hb : b.length = 6 := h b (List.mem_cons_self _ _)
      have hrest := ih (fun x hx => h x (List.mem_cons_of_mem _ hx))
      rw [show join_json_blocks (b :: b2 :: bs2) =
          (b.dropLast ++ ["    \x7d,"]) ++ join_json_blocks (b2 :: bs2) from rfl]
      rw [List.length_append, List.length_append, List.length_dropLast, hb, hrest]
      simp only [List.length_cons, List.length_nil]
      omega

/-- The json output has exactly the lines of the serialized object:
three for the empty record list, otherwise four frame lines plus six per
record. -/
theorem format_results_json_length (tz : Int) (results : List Result) :
    (format_results_json tz results).length =
      if results.length = 0 then 3 else 4 + 6 * results.length := by
  have hperm := sortByTime_perm results
  cases hsort : sortByTime results with
  | nil =>
    have : results = [] := by
      have := hperm.length_eq
      rw [hsort] at this
      exact List.eq_nil_of_length_eq_zero this.symm
    subst this
    simp [format_results_json, hsort]
  | cons r rs =>
    have hlen : results.length = rs.length + 1 := by
      have := hperm.length_eq
      rw [hsort] at this
      simpa using this.symm
    have hblocks : ∀ b ∈ (r :: rs).map (json_obj tz), b.length = 6 := by
      intro b hb
      obtain ⟨x, _, hx⟩ := List.mem_map.mp hb
      rw [← hx]
      exact json_obj_length tz x
    simp only [format_results_json, hsort, List.length_append, List.length_cons,
      List.length_nil, join_json_blocks_length _ hblocks, List.length_map, hlen]
    rw [if_neg (by omega)]
    omega

/-- C3 as amended: all four renderers order their emitted records by
ascending `time`, but the tabular and csv formats emit exactly one
delimiter-joined line per record — no date grouping, no date headings —
over the time-sorted permutation of the input; the json format emits its
six-line object blocks over the same time-sorted permutation (three
frame lines for no records, otherwise four frame lines plus six lines
per record); the markdown format emits its date headings in strictly
ascending date-string order and, under each heading, a time-ascending
sequence of records that come from the input and bear that date — it
need not emit every input record (only the last consecutive run of each
date is kept). -/
theorem c3_renderers_order :
    ∀ (tz : Int) (results : List Result),
      format_results_table tz results = (sortByTime results).map (table_line tz) ∧
        format_results_csv tz results = (sortByTime results).map (csv_line tz) ∧
        (sortByTime results).Perm results ∧
        (sortByTime results).Pairwise (fun a b => a.time ≤ b.time) ∧
        (md_dates tz results).Pairwise (fun a b => py_lt a b = true) ∧
        format_results_markdown tz results =
          (md_dates tz results).flatMap
            (fun date => ["## " ++ date, ""] ++ (md_group tz results date).flatMap
              md_entry_lines) ∧
        (∀ d, (md_group tz results d).Pairwise (fun a b => a.time ≤ b.time)) ∧
        (∀ d r, r ∈ md_group tz results d → r ∈ results ∧ r.get_date tz = d) ∧
        (format_results_json tz results).length =
          (if results.length = 0 then 3 else 4 + 6 * results.length) := by
  intro tz results
  refine ⟨rfl, rfl, sortByTime_perm results, sortByTime_sorted results,
    md_dates_pairwise_lt tz results, rfl, ?_, ?_, format_results_json_length tz results⟩
  · intro d
    exact sortByTime_sorted _
  · intro d r hr
    exact md_group_sound tz results d r hr

/-- Witness for C3: on a concrete one-record input the emitted markdown
group member is the input record with its derived date. -/
theorem c3_renderers_order_witness :
    ({ url := "https://a", title := "A", time := 0 } : Result) ∈
        [({ url := "https://a", title := "A", time := 0 } : Result)] ∧
      Result.get_date 0 { url := "https://a", title := "A", time := 0 } = "1970-01-01" :=
  (c3_renderers_order 0 [{ url := "https://a", title := "A", time := 0 }]).2.2.2.2.2.2.2.1
    "1970-01-01" { url := "https://a", title := "A", time := 0 } (by decide)
